import Mathlib

/-!
A shallow embedding of `src/sharepoint_api.py` (class `SharePointClient`)
and a verification of its traversal and mirroring behaviour.

Modelling conventions:
- Remote HTTP GET endpoints that return JSON are modelled as functions from
  the request URL to a `ChildrenResp` (either a malformed body, on which
  `.json()` raises, or a parsed body with an optional `value` array).
- The content-download endpoint is modelled as a function from the request
  URL to a `DlResp` carrying `status_code`, `reason` and the raw bytes.
- A child item of a Graph `children` response is modelled by `Item`:
  `folder = true` models the presence of the `folder` facet key, and
  `file = some mt` models the presence of the `file` facet key with
  `mimeType` `mt`.
- Local paths are lists of path segments; `os.path.join(p, name)` becomes
  `p ++ [name]`.  The local filesystem is a set of directories plus a map
  from paths to byte contents, both as lists.
- The unbounded recursion of the Python functions (which recurse through
  ids served by the remote side, with no local termination guarantee) is
  made total with an explicit fuel parameter; running out of fuel is the
  distinguished error `RunErr.outOfFuel`, an uncaught Python exception is
  `RunErr.exn`.
-/

structure Item where
  id : String
  name : String
  folder : Bool
  file : Option String
deriving DecidableEq

/-- Result of `requests.get(...).json()` on a children listing: either the
body is not JSON (`.json()` raises), or it parses and the `value` key is
present or absent. -/
inductive ChildrenResp where
  | malformed : ChildrenResp
  | json : Option (List Item) → ChildrenResp
deriving DecidableEq

/-- The remote children/listing side of the Graph API, keyed by request URL. -/
def Server : Type := String → ChildrenResp

/-- Result of `requests.get` on a content download URL. -/
structure DlResp where
  status_code : Nat
  reason : String
  content : List Nat
deriving DecidableEq

/-- The remote content-download side of the Graph API, keyed by request URL. -/
def Downloads : Type := String → DlResp

/-- How an embedded run of a recursive routine can fail: `exn` models an
uncaught Python exception, `outOfFuel` models exhausting the explicit fuel
that stands in for the unbounded recursion. -/
inductive RunErr where
  | exn
  | outOfFuel
deriving DecidableEq

/-- One element of the list built by `list_folder_contents`:
`{'name': ..., 'type': 'Folder'|'File', 'mimeType': ...}`. -/
structure Entry where
  name : String
  type : String
  mimeType : Option String
deriving DecidableEq

deriving instance DecidableEq for Except

/-- A console line printed by `download_file`. -/
inductive LogEvent where
  | downloaded : List String → LogEvent
  | failed : String → Nat → String → LogEvent
deriving DecidableEq

/-- The local filesystem: a set of directories and a path-indexed store of
file contents. -/
structure FS where
  dirs : List (List String)
  files : List (List String × List Nat)
deriving DecidableEq

/-- The mutable world `download_folder_contents` acts on: the filesystem
and the console log. -/
structure MState where
  fs : FS
  log : List LogEvent
deriving DecidableEq

/-! ## URL construction (lines 10, 27, 33, 40, 52, 85, 99 of the source) -/

def folder_contents_url (site_id drive_id folder_id : String) : String :=
  "https://graph.microsoft.com/v1.0/sites/" ++ site_id ++ "/drives/" ++ drive_id
    ++ "/items/" ++ folder_id ++ "/children"

def root_children_url (site_id drive_id : String) : String :=
  "https://graph.microsoft.com/v1.0/sites/" ++ site_id ++ "/drives/" ++ drive_id
    ++ "/root/children"

/-- The module-level global `resource = 'https://graph.microsoft.com/'`
(line 107 of the source). -/
def resource : String := "https://graph.microsoft.com/"

/-- The URL built at line 99 of the source:
`f"{resource}/v1.0/sites/{site_id}/drives/{drive_id}/items/{item['id']}/content"`,
where `resource` is the module-level global, not a per-item field. -/
def file_download_url (site_id drive_id item_id : String) : String :=
  resource ++ "/v1.0/sites/" ++ site_id ++ "/drives/" ++ drive_id ++ "/items/"
    ++ item_id ++ "/content"

/-- Modelled from the spec: section 6 gives the content download endpoint as
`GET https://graph.microsoft.com/v1.0/sites/{site_id}/drives/{drive_id}/items/{item_id}/content`,
built from the item's own identifier. -/
def spec_content_url (site_id drive_id item_id : String) : String :=
  "https://graph.microsoft.com/v1.0/sites/" ++ site_id ++ "/drives/" ++ drive_id
    ++ "/items/" ++ item_id ++ "/content"

/-! ## Token acquisition (`get_access_token`, lines 14-23) -/

/-- The parsed JSON body of the identity provider's response;
`access_token = none` models a body with no `access_token` field, so that
`.get('access_token')` yields `None`. -/
structure TokenJson where
  access_token : Option String
deriving DecidableEq

/-- The form body sent by `get_access_token` (lines 16-21). -/
def token_request_body (client_id client_secret resource_url : String) :
    List (String × String) :=
  [("grant_type", "client_credentials"),
   ("client_id", client_id),
   ("client_secret", client_secret),
   ("scope", resource_url ++ ".default")]

/-- `get_access_token` (lines 14-23): posts the form body to the identity
endpoint and returns `response.json().get('access_token')` — an `Option`,
with no error raised when the field is absent. -/
def get_access_token (provider : List (String × String) → TokenJson)
    (client_id client_secret resource_url : String) : Option String :=
  (provider (token_request_body client_id client_secret resource_url)).access_token

/-- Python rendering of an optional string inside an f-string:
`f"Bearer {None}"` prints as `"Bearer None"`. -/
def pyFormat : Option String → String
  | some s => s
  | none => "None"

/-- The `Authorization` header value `f'Bearer {self.access_token}'` used by
every subsequent request in the source. -/
def auth_header (token : Option String) : String :=
  "Bearer " ++ pyFormat token

/-! ## `get_folder_content` (lines 38-47) -/

/-- `get_folder_content` (lines 38-47): requests the drive root's children
(the URL is built from `site_id` and `drive_id` only — `folder_path` appears
nowhere in it) and collects `(id, name)` pairs when `value` is present. -/
def get_folder_content (srv : Server) (site_id drive_id folder_path : String) :
    Except RunErr (List (String × String)) :=
  match srv (root_children_url site_id drive_id) with
  | .malformed => .error .exn
  | .json none => .ok []
  | .json (some items) => .ok (items.map (fun item => (item.id, item.name)))

/-! ## `list_folder_contents` (lines 50-70) -/

/-- The body of the `for item in folder_contents['value']` loop of
`list_folder_contents` (lines 60-68), with the recursive call abstracted as
`rec`: a folder contributes its entry followed by its recursively listed
subtree, a file contributes its entry with its `mimeType`, an item with
neither facet contributes nothing. -/
def list_folder_items (rec : String → Except RunErr (List Entry)) :
    List Item → Except RunErr (List Entry)
  | [] => .ok []
  | item :: rest =>
    if item.folder then
      match rec item.id with
      | .error e => .error e
      | .ok sub =>
        match list_folder_items rec rest with
        | .error e => .error e
        | .ok others =>
          .ok ({name := item.name, type := "Folder", mimeType := none} :: (sub ++ others))
    else
      match item.file with
      | some mt =>
        match list_folder_items rec rest with
        | .error e => .error e
        | .ok others =>
          .ok ({name := item.name, type := "File", mimeType := some mt} :: others)
      | none => list_folder_items rec rest

/-- `list_folder_contents` (lines 50-70): fetch the children of `folder_id`,
return `[]` when the parsed body has no `value` key, raise on a malformed
body, and otherwise run the item loop, recursing into subfolders with
`level + 1`. -/
def list_folder_contents (srv : Server) (site_id drive_id : String) :
    Nat → String → Nat → Except RunErr (List Entry)
  | 0, _, _ => .error .outOfFuel
  | f + 1, folder_id, level =>
    match srv (folder_contents_url site_id drive_id folder_id) with
    | .malformed => .error .exn
    | .json none => .ok []
    | .json (some items) =>
      list_folder_items
        (fun cid => list_folder_contents srv site_id drive_id f cid (level + 1)) items

/-! ## Local filesystem primitives (`os.path`, `os.makedirs`, `open(...,'wb')`) -/

/-- All nonempty prefixes of a path, shortest first. -/
def initSegs : List String → List (List String)
  | [] => []
  | a :: rest => [a] :: (initSegs rest).map (fun p => a :: p)

/-- `os.makedirs(p)`: creates the directory and every missing ancestor. -/
def makedirs (fs : FS) (p : List String) : FS :=
  { fs with dirs := initSegs p ++ fs.dirs }

/-- `os.path.exists(p)`: true if a directory or a file is present at `p`. -/
def pathExists (fs : FS) (p : List String) : Prop :=
  p ∈ fs.dirs ∨ p ∈ fs.files.map Prod.fst

instance (fs : FS) (p : List String) : Decidable (pathExists fs p) := by
  unfold pathExists
  exact inferInstance

/-- `open(full_path, 'wb'); file.write(content)`: replaces whatever file was
at `p` by one with content `c`. -/
def writeFile (fs : FS) (p : List String) (c : List Nat) : FS :=
  { fs with files := (p, c) :: fs.files.filter (fun e => decide (e.1 ≠ p)) }

/-- The content of the file at `p`, if one is present. -/
def readFile (fs : FS) (p : List String) : Option (List Nat) :=
  (fs.files.find? (fun e => decide (e.1 = p))).map Prod.snd

/-! ## `download_file` (lines 72-81) -/

/-- `download_file` (lines 72-81): GET the download URL; on HTTP 200 write
the bytes to `local_path/file_name` and print the success line, otherwise
print the failure line with status and reason and write nothing. -/
def download_file (dl : Downloads) (download_url : String)
    (local_path : List String) (file_name : String) (s : MState) : MState :=
  let response := dl download_url
  if response.status_code = 200 then
    let full_path := local_path ++ [file_name]
    { fs := writeFile s.fs full_path response.content,
      log := s.log ++ [LogEvent.downloaded full_path] }
  else
    { s with log := s.log ++ [LogEvent.failed file_name response.status_code response.reason] }

/-! ## `download_folder_contents` (lines 83-100) -/

/-- The body of the `for item in folder_contents['value']` loop of
`download_folder_contents` (lines 91-100), with the recursive call
abstracted as `rec`: a folder gets a local directory (created only when
`os.path.exists` is false) and is recursed into, a file is fetched from the
URL of line 99 and handed to `download_file`, an item with neither facet is
skipped. -/
def download_folder_items (dl : Downloads) (site_id drive_id : String)
    (rec : String → List String → MState → Except RunErr MState)
    (local_folder_path : List String) :
    List Item → MState → Except RunErr MState
  | [], s => .ok s
  | item :: rest, s =>
    if item.folder then
      let new_path := local_folder_path ++ [item.name]
      let s1 := if pathExists s.fs new_path then s else { s with fs := makedirs s.fs new_path }
      match rec item.id new_path s1 with
      | .error e => .error e
      | .ok s2 => download_folder_items dl site_id drive_id rec local_folder_path rest s2
    else
      match item.file with
      | some _ =>
        download_folder_items dl site_id drive_id rec local_folder_path rest
          (download_file dl (file_download_url site_id drive_id item.id)
            local_folder_path item.name s)
      | none => download_folder_items dl site_id drive_id rec local_folder_path rest s

/-- `download_folder_contents` (lines 83-100): fetch the children of
`folder_id`, do nothing when the parsed body has no `value` key, raise on a
malformed body, and otherwise run the item loop, recursing into subfolders
with the extended local path and `level + 1`. -/
def download_folder_contents (srv : Server) (dl : Downloads)
    (site_id drive_id : String) :
    Nat → String → List String → Nat → MState → Except RunErr MState
  | 0, _, _, _, _ => .error .outOfFuel
  | f + 1, folder_id, local_folder_path, level, s =>
    match srv (folder_contents_url site_id drive_id folder_id) with
    | .malformed => .error .exn
    | .json none => .ok s
    | .json (some items) =>
      download_folder_items dl site_id drive_id
        (fun cid new_path s1 =>
          download_folder_contents srv dl site_id drive_id f cid new_path (level + 1) s1)
        local_folder_path items s

/-! ## Well-formed finite remote trees

`RTree` is the shape a well-formed finite remote drive subtree can take;
`Presents` says the children endpoint of a `Server` serves exactly this
tree.  All reference functions below are pure structural recursions over
`RTree`. -/

inductive RTree where
  | folder : String → String → List RTree → RTree
  | file : String → String → String → RTree

def RTree.name : RTree → String
  | .folder _ n _ => n
  | .file _ n _ => n

/-- The JSON item a tree node appears as inside its parent's `value` array. -/
def itemOf : RTree → Item
  | .folder i n _ => { id := i, name := n, folder := true, file := none }
  | .file i n mt => { id := i, name := n, folder := false, file := some mt }

/-- The server presents the tree: for every folder node, the children
request for its id parses and its `value` array lists exactly the node's
children, in order. -/
inductive Presents (srv : Server) (site_id drive_id : String) : RTree → Prop where
  | folder : ∀ (i n : String) (cs : List RTree),
      srv (folder_contents_url site_id drive_id i) = ChildrenResp.json (some (cs.map itemOf)) →
      (∀ c ∈ cs, Presents srv site_id drive_id c) →
      Presents srv site_id drive_id (RTree.folder i n cs)
  | file : ∀ (i n mt : String), Presents srv site_id drive_id (RTree.file i n mt)

mutual
def heightT : RTree → Nat
  | .file _ _ _ => 0
  | .folder _ _ cs => heightF cs + 1
def heightF : List RTree → Nat
  | [] => 0
  | t :: ts => max (heightT t) (heightF ts)
end

mutual
def countT : RTree → Nat
  | .file _ _ _ => 1
  | .folder _ _ cs => 1 + countF cs
def countF : List RTree → Nat
  | [] => 0
  | t :: ts => countT t + countF ts
end

mutual
def foldersT : RTree → Nat
  | .file _ _ _ => 0
  | .folder _ _ cs => 1 + foldersF cs
def foldersF : List RTree → Nat
  | [] => 0
  | t :: ts => foldersT t + foldersF ts
end

mutual
def filesT : RTree → Nat
  | .file _ _ _ => 1
  | .folder _ _ cs => filesF cs
def filesF : List RTree → Nat
  | [] => 0
  | t :: ts => filesT t + filesF ts
end

/-! The pre-order listing of a subtree: the node's own entry first, then,
for a folder, the listings of its children in order. -/
mutual
def preorderT : RTree → List Entry
  | .file _ n mt => [{ name := n, type := "File", mimeType := some mt }]
  | .folder _ n cs => { name := n, type := "Folder", mimeType := none } :: preorderF cs
def preorderF : List RTree → List Entry
  | [] => []
  | t :: ts => preorderT t ++ preorderF ts
end

/-! Well-formedness of a remote tree: within every folder the child names
are pairwise distinct. -/
mutual
def wfT : RTree → Bool
  | .file _ _ _ => true
  | .folder _ _ cs => wfF cs
def wfF : List RTree → Bool
  | [] => true
  | t :: ts => wfT t && wfF ts && !(decide (t.name ∈ ts.map RTree.name))
end

/-! The relative paths (under the folder being mirrored) of all folders of
a subtree. -/
mutual
def folderPathsT : RTree → List (List String)
  | .file _ _ _ => []
  | .folder _ n cs => [n] :: (folderPathsF cs).map (fun q => n :: q)
def folderPathsF : List RTree → List (List String)
  | [] => []
  | t :: ts => folderPathsT t ++ folderPathsF ts
end

/-! The relative paths of all files of a subtree. -/
mutual
def filePathsT : RTree → List (List String)
  | .file _ n _ => [[n]]
  | .folder _ n cs => (filePathsF cs).map (fun q => n :: q)
def filePathsF : List RTree → List (List String)
  | [] => []
  | t :: ts => filePathsT t ++ filePathsF ts
end

/-- The content-download response the mirror run gets for the file with
item id `i` (requested at the URL of line 99 of the source). -/
def fetchFile (dl : Downloads) (site_id drive_id i : String) : DlResp :=
  dl (file_download_url site_id drive_id i)

/-! The relative paths and contents of the files of a subtree whose content
fetch succeeds (HTTP 200). -/
mutual
def okFilesT (dl : Downloads) (site_id drive_id : String) :
    RTree → List (List String × List Nat)
  | .file i n _ =>
    if (fetchFile dl site_id drive_id i).status_code = 200 then
      [([n], (fetchFile dl site_id drive_id i).content)]
    else []
  | .folder _ n cs => (okFilesF dl site_id drive_id cs).map (fun e => (n :: e.1, e.2))
def okFilesF (dl : Downloads) (site_id drive_id : String) :
    List RTree → List (List String × List Nat)
  | [] => []
  | t :: ts => okFilesT dl site_id drive_id t ++ okFilesF dl site_id drive_id ts
end

/-! The console log a mirror run of a subtree produces: one `downloaded`
line per successful file fetch, one `failed` line per unsuccessful one, in
traversal order. -/
mutual
def mirrorLogT (dl : Downloads) (site_id drive_id : String) (local_path : List String) :
    RTree → List LogEvent
  | .file i n _ =>
    let r := fetchFile dl site_id drive_id i
    if r.status_code = 200 then [LogEvent.downloaded (local_path ++ [n])]
    else [LogEvent.failed n r.status_code r.reason]
  | .folder _ n cs => mirrorLogF dl site_id drive_id (local_path ++ [n]) cs
def mirrorLogF (dl : Downloads) (site_id drive_id : String) (local_path : List String) :
    List RTree → List LogEvent
  | [] => []
  | t :: ts =>
    mirrorLogT dl site_id drive_id local_path t ++ mirrorLogF dl site_id drive_id local_path ts
end

/-! The pure state transformer that `download_folder_contents` implements
on a presented tree: exactly the loop body of lines 91-100, but driven by
the tree instead of by server responses. -/
mutual
def mirrorT (dl : Downloads) (site_id drive_id : String) (local_path : List String) :
    RTree → MState → MState
  | .file i n _, s => download_file dl (file_download_url site_id drive_id i) local_path n s
  | .folder _ n cs, s =>
    let new_path := local_path ++ [n]
    let s1 := if pathExists s.fs new_path then s else { s with fs := makedirs s.fs new_path }
    mirrorF dl site_id drive_id new_path cs s1
def mirrorF (dl : Downloads) (site_id drive_id : String) (local_path : List String) :
    List RTree → MState → MState
  | [], s => s
  | t :: ts, s =>
    mirrorF dl site_id drive_id local_path ts (mirrorT dl site_id drive_id local_path t s)
end

/-- Overlay of a relative-path-indexed batch of file writes over a fallback
lookup: what `readFile` returns after mirroring, at any path. -/
def overlay (entries : List (List String × List Nat)) (base p : List String)
    (fallback : Option (List Nat)) : Option (List Nat) :=
  match entries.find? (fun e => decide (base ++ e.1 = p)) with
  | some e => some e.2
  | none => fallback

/-! ## Filesystem lemmas -/

theorem initSegs_append_single (l : List String) (a : String) :
    initSegs (l ++ [a]) = initSegs l ++ [l ++ [a]] := by
  induction l with
  | nil => rfl
  | cons b l ih => simp [initSegs, ih]

theorem makedirs_files (fs : FS) (p : List String) : (makedirs fs p).files = fs.files := rfl

theorem writeFile_dirs (fs : FS) (p : List String) (c : List Nat) :
    (writeFile fs p c).dirs = fs.dirs := rfl

theorem mem_makedirs (fs : FS) (q p : List String) :
    p ∈ (makedirs fs q).dirs ↔ p ∈ initSegs q ∨ p ∈ fs.dirs := by
  simp [makedirs]

theorem find?_filter_ne (l : List (List String × List Nat)) (p q : List String)
    (hpq : p ≠ q) :
    (l.filter (fun e => decide (e.1 ≠ p))).find? (fun e => decide (e.1 = q)) =
      l.find? (fun e => decide (e.1 = q)) := by
  induction l with
  | nil => rfl
  | cons e l ih =>
    rw [List.filter_cons]
    by_cases hp : e.1 = p
    · have hq : ¬ e.1 = q := fun h => hpq (hp ▸ h)
      rw [if_neg (by simp [hp]), List.find?_cons_of_neg _ (by simpa using hq)]
      exact ih
    · rw [if_pos (by simp [hp])]
      by_cases hq : e.1 = q
      · rw [List.find?_cons_of_pos _ (by simpa using hq),
          List.find?_cons_of_pos _ (by simpa using hq)]
      · rw [List.find?_cons_of_neg _ (by simpa using hq),
          List.find?_cons_of_neg _ (by simpa using hq)]
        exact ih

theorem readFile_writeFile (fs : FS) (p q : List String) (c : List Nat) :
    readFile (writeFile fs p c) q = if p = q then some c else readFile fs q := by
  by_cases h : p = q
  · subst h
    simp only [readFile, writeFile, if_true]
    rw [List.find?_cons_of_pos _ (by simp)]
    rfl
  · simp only [readFile, writeFile, h, if_false]
    rw [List.find?_cons_of_neg _ (by simpa using h), find?_filter_ne _ _ _ h]

theorem readFile_eq_none_iff (fs : FS) (p : List String) :
    readFile fs p = none ↔ ∀ e ∈ fs.files, e.1 ≠ p := by
  simp [readFile, List.find?_eq_none]

theorem mem_files_writeFile (fs : FS) (p q : List String) (c : List Nat) :
    q ∈ (writeFile fs p c).files.map Prod.fst ↔ q = p ∨ q ∈ fs.files.map Prod.fst := by
  simp only [writeFile, List.map_cons, List.mem_cons, List.mem_map, List.mem_filter,
    decide_not, decide_eq_true_eq, Bool.not_eq_eq_eq_not, Bool.not_false]
  constructor
  · rintro (h | ⟨e, ⟨he, _⟩, hq⟩)
    · exact Or.inl h
    · exact Or.inr ⟨e, he, hq⟩
  · rintro (h | ⟨e, he, hq⟩)
    · exact Or.inl h
    · by_cases hep : e.1 = p
      · exact Or.inl (hq ▸ hep)
      · exact Or.inr ⟨e, ⟨he, by simpa using hep⟩, hq⟩

/-! ## Overlay lemmas -/

theorem overlay_nil (b p : List String) (fb : Option (List Nat)) :
    overlay [] b p fb = fb := rfl

theorem overlay_of_none (L : List (List String × List Nat)) (b p : List String)
    (fb : Option (List Nat)) (h : ∀ e ∈ L, b ++ e.1 ≠ p) :
    overlay L b p fb = fb := by
  unfold overlay
  rw [List.find?_eq_none.mpr (by simpa using h)]

theorem overlay_append (A B : List (List String × List Nat)) (b p : List String)
    (fb : Option (List Nat))
    (h : ∀ ea ∈ A, b ++ ea.1 = p → ∀ eb ∈ B, ¬ b ++ eb.1 = p) :
    overlay (A ++ B) b p fb = overlay B b p (overlay A b p fb) := by
  induction A with
  | nil => rfl
  | cons a A ih =>
    by_cases ha : b ++ a.1 = p
    · unfold overlay
      rw [List.cons_append, List.find?_cons_of_pos _ (by simpa using ha),
        List.find?_cons_of_pos _ (by simpa using ha)]
      have hB : ∀ eb ∈ B, ¬ b ++ eb.1 = p := h a (List.mem_cons_self a A) ha
      rw [List.find?_eq_none.mpr (by simpa using hB)]
    · unfold overlay
      rw [List.cons_append, List.find?_cons_of_neg _ (by simpa using ha),
        List.find?_cons_of_neg _ (by simpa using ha)]
      have := ih (fun ea hea hp => h ea (List.mem_cons_of_mem a hea) hp)
      unfold overlay at this
      exact this

theorem overlay_shift (L : List (List String × List Nat)) (a : String)
    (b p : List String) (fb : Option (List Nat)) :
    overlay (L.map (fun e => (a :: e.1, e.2))) b p fb = overlay L (b ++ [a]) p fb := by
  unfold overlay
  rw [List.find?_map]
  have hpred : ((fun e : List String × List Nat => decide (b ++ e.1 = p)) ∘
      (fun e : List String × List Nat => (a :: e.1, e.2))) =
      (fun e : List String × List Nat => decide ((b ++ [a]) ++ e.1 = p)) := by
    funext e
    simp
  rw [hpred]
  cases L.find? (fun e : List String × List Nat => decide ((b ++ [a]) ++ e.1 = p)) <;> rfl

/-! ## Tree path lemmas -/

theorem countT_pos (t : RTree) : 1 ≤ countT t := by
  cases t <;> simp [countT]

theorem heightT_le_cons (t : RTree) (ts : List RTree) :
    heightT t ≤ heightF (t :: ts) := by
  simp [heightF]

theorem heightF_le_cons (t : RTree) (ts : List RTree) :
    heightF ts ≤ heightF (t :: ts) := by
  simp [heightF]

theorem folderPathsT_head (t : RTree) (q : List String) (h : q ∈ folderPathsT t) :
    ∃ r, q = t.name :: r := by
  cases t with
  | file i n mt => simp [folderPathsT] at h
  | folder i n cs =>
    simp only [folderPathsT, List.mem_cons, List.mem_map] at h
    rcases h with h | ⟨r, _, hr⟩
    · exact ⟨[], h⟩
    · exact ⟨r, hr.symm⟩

theorem filePathsT_head (t : RTree) (q : List String) (h : q ∈ filePathsT t) :
    ∃ r, q = t.name :: r := by
  cases t with
  | file i n mt =>
    simp only [filePathsT, List.mem_singleton] at h
    exact ⟨[], h⟩
  | folder i n cs =>
    simp only [filePathsT, List.mem_map] at h
    rcases h with ⟨r, _, hr⟩
    exact ⟨r, hr.symm⟩

theorem mem_folderPathsF (cs : List RTree) (q : List String) :
    q ∈ folderPathsF cs ↔ ∃ t ∈ cs, q ∈ folderPathsT t := by
  induction cs with
  | nil => simp [folderPathsF]
  | cons t ts ih => simp [folderPathsF, ih]

theorem mem_filePathsF (cs : List RTree) (q : List String) :
    q ∈ filePathsF cs ↔ ∃ t ∈ cs, q ∈ filePathsT t := by
  induction cs with
  | nil => simp [filePathsF]
  | cons t ts ih => simp [filePathsF, ih]

theorem wfF_cons (t : RTree) (ts : List RTree) :
    wfF (t :: ts) = true ↔
      wfT t = true ∧ wfF ts = true ∧ t.name ∉ ts.map RTree.name := by
  simp [wfF, Bool.and_eq_true, and_assoc]

theorem okFilesF_sub_aux (dl : Downloads) (site_id drive_id : String) :
    ∀ n cs, countF cs ≤ n →
      ∀ e ∈ okFilesF dl site_id drive_id cs, e.1 ∈ filePathsF cs := by
  intro n
  induction n with
  | zero =>
    intro cs hc
    cases cs with
    | nil => simp [okFilesF]
    | cons t ts =>
      exfalso
      have := countT_pos t
      simp [countF] at hc
      omega
  | succ n ih =>
    intro cs hc
    cases cs with
    | nil => simp [okFilesF]
    | cons t ts =>
      intro e he
      simp only [okFilesF, List.mem_append] at he
      simp only [countF] at hc
      have h1 : 1 ≤ countT t := countT_pos t
      simp only [filePathsF, List.mem_append]
      rcases he with he | he
      · left
        cases t with
        | file i nm mt =>
          simp only [okFilesT] at he
          by_cases hs : (fetchFile dl site_id drive_id i).status_code = 200
          · simp only [hs, if_true, List.mem_singleton] at he
            simp [filePathsT, he]
          · simp [hs] at he
        | folder i nm cs' =>
          simp only [okFilesT, List.mem_map] at he
          rcases he with ⟨e', he', rfl⟩
          have hcs' : countF cs' ≤ n := by
            simp only [countT] at h1 hc
            omega
          have := ih cs' hcs' e' he'
          simp only [filePathsT, List.mem_map]
          exact ⟨e'.1, this, rfl⟩
      · right
        have hts : countF ts ≤ n := by omega
        exact ih ts hts e he

theorem okFilesF_sub (dl : Downloads) (site_id drive_id : String) (cs : List RTree) :
    ∀ e ∈ okFilesF dl site_id drive_id cs, e.1 ∈ filePathsF cs :=
  okFilesF_sub_aux dl site_id drive_id (countF cs) cs (le_refl _)

theorem filePathsF_ne_nil (cs : List RTree) (q : List String)
    (h : q ∈ filePathsF cs) : q ≠ [] := by
  rcases (mem_filePathsF cs q).mp h with ⟨t, _, ht⟩
  rcases filePathsT_head t q ht with ⟨r, rfl⟩
  simp

theorem wf_folder_file_disjoint_aux :
    ∀ n cs, countF cs ≤ n → wfF cs = true →
      ∀ q ∈ folderPathsF cs, q ∉ filePathsF cs := by
  intro n
  induction n with
  | zero =>
    intro cs hc _
    cases cs with
    | nil => simp [folderPathsF]
    | cons t ts =>
      exfalso
      have := countT_pos t
      simp [countF] at hc
      omega
  | succ n ih =>
    intro cs hc hwf q hq hq'
    cases cs with
    | nil => simp [folderPathsF] at hq
    | cons t ts =>
      rcases (wfF_cons t ts).mp hwf with ⟨hwt, hwts, hname⟩
      simp only [countF] at hc
      have h1 : 1 ≤ countT t := countT_pos t
      simp only [folderPathsF, List.mem_append] at hq
      simp only [filePathsF, List.mem_append] at hq'
      rcases hq with hq | hq
      · rcases folderPathsT_head t q hq with ⟨r, rfl⟩
        rcases hq' with hq' | hq'
        · -- folder path and file path inside the same subtree t
          cases t with
          | file i nm mt => simp [folderPathsT] at hq
          | folder i nm cs' =>
            simp only [folderPathsT, List.mem_cons, List.mem_map] at hq
            simp only [filePathsT, List.mem_map] at hq'
            rcases hq' with ⟨r', hr', hre⟩
            have hr : r' = r := by
              have : nm = (RTree.folder i nm cs').name := rfl
              simpa [RTree.name] using hre
            subst hr
            rcases hq with hq | ⟨r2, hr2, hre2⟩
            · -- q = [name]: but file paths are nonempty below the name
              have : r' ∈ filePathsF cs' := hr'
              have hne := filePathsF_ne_nil cs' r' this
              have : (RTree.folder i nm cs').name :: r' = [(RTree.folder i nm cs').name] := hq
              simp at this
              exact hne this
            · have hr2' : r2 = r' := by simpa [RTree.name] using hre2
              subst hr2'
              have hcs' : countF cs' ≤ n := by
                simp only [countT] at h1 hc
                omega
              have hwcs' : wfF cs' = true := by simpa [wfT] using hwt
              exact ih cs' hcs' hwcs' r2 hr2 hr'
        · -- folder path in t, file path in some later sibling: heads differ
          rcases (mem_filePathsF ts _).mp hq' with ⟨u, hu, hqu⟩
          rcases filePathsT_head u _ hqu with ⟨r', hr'⟩
          have : t.name = u.name := by
            have h0 : t.name :: r = u.name :: r' := hr'
            exact (List.cons.injEq _ _ _ _ ▸ h0).1
          exact hname (this ▸ List.mem_map_of_mem RTree.name hu)
      · rcases hq' with hq' | hq'
        · -- folder path in later sibling, file path in t: heads differ
          rcases (mem_folderPathsF ts q).mp hq with ⟨u, hu, hqu⟩
          rcases folderPathsT_head u _ hqu with ⟨r, hr⟩
          rcases filePathsT_head t _ hq' with ⟨r', hr''⟩
          have : t.name = u.name := by
            have h0 : u.name :: r = t.name :: r' := hr ▸ hr''
            exact ((List.cons.injEq _ _ _ _ ▸ h0).1).symm
          exact hname (this ▸ List.mem_map_of_mem RTree.name hu)
        · have hts : countF ts ≤ n := by omega
          exact ih ts hts hwts q hq hq'

theorem wf_folder_file_disjoint (cs : List RTree) (hwf : wfF cs = true) :
    ∀ q ∈ folderPathsF cs, q ∉ filePathsF cs :=
  wf_folder_file_disjoint_aux (countF cs) cs (le_refl _) hwf

theorem wf_sibling_file_disjoint (t : RTree) (ts : List RTree)
    (hname : t.name ∉ ts.map RTree.name) (q : List String)
    (hq : q ∈ filePathsT t) : q ∉ filePathsF ts := by
  intro hq'
  rcases filePathsT_head t q hq with ⟨r, rfl⟩
  rcases (mem_filePathsF ts _).mp hq' with ⟨u, hu, hqu⟩
  rcases filePathsT_head u _ hqu with ⟨r', hr'⟩
  have : t.name = u.name := (List.cons.injEq _ _ _ _ ▸ hr').1
  exact hname (this ▸ List.mem_map_of_mem RTree.name hu)

/-! ## The walk on a presented tree -/

theorem list_folder_items_tree (srv : Server) (site_id drive_id : String) :
    ∀ f cs (level : Nat),
      (∀ c ∈ cs, Presents srv site_id drive_id c) → heightF cs ≤ f →
      list_folder_items
        (fun cid => list_folder_contents srv site_id drive_id f cid level)
        (cs.map itemOf) = .ok (preorderF cs) := by
  intro f
  induction f using Nat.strong_induction_on with
  | _ f ihf =>
    intro cs
    induction cs with
    | nil =>
      intro level _ _
      rfl
    | cons t ts ihl =>
      intro level hpres hht
      have hpt : Presents srv site_id drive_id t := hpres t (List.mem_cons_self t ts)
      have hpts : ∀ c ∈ ts, Presents srv site_id drive_id c :=
        fun c hc => hpres c (List.mem_cons_of_mem t hc)
      have hhts : heightF ts ≤ f := le_trans (heightF_le_cons t ts) hht
      have hrest := ihl level hpts hhts
      cases t with
      | file i n mt =>
        simp only [List.map_cons, itemOf, list_folder_items, Bool.false_eq_true,
          if_false, hrest]
        simp [preorderF, preorderT]
      | folder i n cs' =>
        have hh : heightF cs' + 1 ≤ f :=
          le_trans (le_trans (le_refl _) (heightT_le_cons (.folder i n cs') ts)) hht
        obtain ⟨g, rfl⟩ : ∃ g, f = g + 1 := ⟨f - 1, by omega⟩
        cases hpt with
        | folder _ _ _ hsrv hcs' =>
          have hsub : list_folder_contents srv site_id drive_id (g + 1) i level =
              .ok (preorderF cs') := by
            simp only [list_folder_contents, hsrv]
            exact ihf g (by omega) cs' (level + 1) hcs' (by
              have : heightT (RTree.folder i n cs') = heightF cs' + 1 := rfl
              omega)
          simp only [List.map_cons, itemOf, list_folder_items, if_true, hsub, hrest]
          simp [preorderF, preorderT]

theorem list_folder_contents_tree (srv : Server) (site_id drive_id : String)
    (i n : String) (cs : List RTree) (fuel level : Nat)
    (hp : Presents srv site_id drive_id (RTree.folder i n cs))
    (hf : heightF cs < fuel) :
    list_folder_contents srv site_id drive_id fuel i level = .ok (preorderF cs) := by
  obtain ⟨g, rfl⟩ : ∃ g, fuel = g + 1 := ⟨fuel - 1, by omega⟩
  cases hp with
  | folder _ _ _ hsrv hcs =>
    simp only [list_folder_contents, hsrv]
    exact list_folder_items_tree srv site_id drive_id g cs (level + 1) hcs (by omega)

theorem preorderF_length_aux :
    ∀ n cs, countF cs ≤ n → (preorderF cs).length = foldersF cs + filesF cs := by
  intro n
  induction n with
  | zero =>
    intro cs hc
    cases cs with
    | nil => rfl
    | cons t ts =>
      exfalso
      have := countT_pos t
      simp [countF] at hc
      omega
  | succ n ih =>
    intro cs hc
    cases cs with
    | nil => rfl
    | cons t ts =>
      simp only [countF] at hc
      have h1 : 1 ≤ countT t := countT_pos t
      have hts := ih ts (by omega)
      cases t with
      | file i nm mt =>
        simp [preorderF, preorderT, foldersF, foldersT, filesF, filesT, hts]
        omega
      | folder i nm cs' =>
        have hcs' := ih cs' (by
          simp only [countT] at h1 hc
          omega)
        simp [preorderF, preorderT, foldersF, foldersT, filesF, filesT, hts, hcs']
        omega

theorem preorderF_length (cs : List RTree) :
    (preorderF cs).length = foldersF cs + filesF cs :=
  preorderF_length_aux (countF cs) cs (le_refl _)

theorem countF_eq_aux :
    ∀ n cs, countF cs ≤ n → countF cs = foldersF cs + filesF cs := by
  intro n
  induction n with
  | zero =>
    intro cs hc
    cases cs with
    | nil => rfl
    | cons t ts =>
      exfalso
      have := countT_pos t
      simp [countF] at hc
      omega
  | succ n ih =>
    intro cs hc
    cases cs with
    | nil => rfl
    | cons t ts =>
      simp only [countF] at hc
      have h1 : 1 ≤ countT t := countT_pos t
      have hts := ih ts (by omega)
      cases t with
      | file i nm mt =>
        simp [countF, countT, foldersF, foldersT, filesF, filesT, hts]
        omega
      | folder i nm cs' =>
        have hcs' := ih cs' (by
          simp only [countT] at h1 hc
          omega)
        simp [countF, countT, foldersF, foldersT, filesF, filesT, hts, hcs']
        omega

theorem countF_eq (cs : List RTree) : countF cs = foldersF cs + filesF cs :=
  countF_eq_aux (countF cs) cs (le_refl _)

/-! ## The mirror on a presented tree -/

theorem download_folder_items_tree (srv : Server) (dl : Downloads)
    (site_id drive_id : String) :
    ∀ f cs (level : Nat) (local_path : List String) (s : MState),
      (∀ c ∈ cs, Presents srv site_id drive_id c) → heightF cs ≤ f →
      download_folder_items dl site_id drive_id
        (fun cid new_path s1 =>
          download_folder_contents srv dl site_id drive_id f cid new_path level s1)
        local_path (cs.map itemOf) s =
        .ok (mirrorF dl site_id drive_id local_path cs s) := by
  intro f
  induction f using Nat.strong_induction_on with
  | _ f ihf =>
    intro cs
    induction cs with
    | nil =>
      intro level local_path s _ _
      rfl
    | cons t ts ihl =>
      intro level local_path s hpres hht
      have hpt : Presents srv site_id drive_id t := hpres t (List.mem_cons_self t ts)
      have hpts : ∀ c ∈ ts, Presents srv site_id drive_id c :=
        fun c hc => hpres c (List.mem_cons_of_mem t hc)
      have hhts : heightF ts ≤ f := le_trans (heightF_le_cons t ts) hht
      cases t with
      | file i n mt =>
        have hrest := ihl level local_path
          (download_file dl (file_download_url site_id drive_id i) local_path n s)
          hpts hhts
        simp only [List.map_cons, itemOf, download_folder_items, Bool.false_eq_true,
          if_false, hrest]
        simp [mirrorF, mirrorT]
      | folder i n cs' =>
        have hh : heightF cs' + 1 ≤ f :=
          le_trans (le_trans (le_refl _) (heightT_le_cons (.folder i n cs') ts)) hht
        obtain ⟨g, rfl⟩ : ∃ g, f = g + 1 := ⟨f - 1, by omega⟩
        cases hpt with
        | folder _ _ _ hsrv hcs' =>
          have hsub : ∀ s1 : MState,
              download_folder_contents srv dl site_id drive_id (g + 1) i
                (local_path ++ [n]) level s1 =
              .ok (mirrorF dl site_id drive_id (local_path ++ [n]) cs' s1) := by
            intro s1
            simp only [download_folder_contents, hsrv]
            exact ihf g (by omega) cs' (level + 1) (local_path ++ [n]) s1 hcs' (by
              have : heightT (RTree.folder i n cs') = heightF cs' + 1 := rfl
              omega)
          simp only [List.map_cons, itemOf, download_folder_items, if_true, hsub]
          have hrest := ihl level local_path
            (mirrorF dl site_id drive_id (local_path ++ [n]) cs'
              (if pathExists s.fs (local_path ++ [n]) then s
               else { s with fs := makedirs s.fs (local_path ++ [n]) }))
            hpts hhts
          simp only [hrest]
          simp [mirrorF, mirrorT]

theorem download_folder_contents_tree (srv : Server) (dl : Downloads)
    (site_id drive_id : String) (i n : String) (cs : List RTree)
    (fuel level : Nat) (local_path : List String) (s : MState)
    (hp : Presents srv site_id drive_id (RTree.folder i n cs))
    (hf : heightF cs < fuel) :
    download_folder_contents srv dl site_id drive_id fuel i local_path level s =
      .ok (mirrorF dl site_id drive_id local_path cs s) := by
  obtain ⟨g, rfl⟩ : ∃ g, fuel = g + 1 := ⟨fuel - 1, by omega⟩
  cases hp with
  | folder _ _ _ hsrv hcs =>
    simp only [download_folder_contents, hsrv]
    exact download_folder_items_tree srv dl site_id drive_id g cs (level + 1)
      local_path s hcs (by omega)

/-! ## Characterization of the mirrored state -/

theorem fp_cons_folder (i nm : String) (cs' ts : List RTree)
    (local_path p : List String) :
    (∃ q ∈ folderPathsF (RTree.folder i nm cs' :: ts), p = local_path ++ q) ↔
      (p = local_path ++ [nm] ∨
        (∃ q' ∈ folderPathsF cs', p = (local_path ++ [nm]) ++ q') ∨
        (∃ q ∈ folderPathsF ts, p = local_path ++ q)) := by
  constructor
  · rintro ⟨q, hq, rfl⟩
    rcases List.mem_append.mp hq with hq | hq
    · rcases List.mem_cons.mp hq with rfl | hq2
      · exact Or.inl rfl
      · rcases List.mem_map.mp hq2 with ⟨q', hq', rfl⟩
        exact Or.inr (Or.inl ⟨q', hq', by simp⟩)
    · exact Or.inr (Or.inr ⟨q, hq, rfl⟩)
  · rintro (rfl | ⟨q', hq', rfl⟩ | ⟨q, hq, rfl⟩)
    · exact ⟨[nm], List.mem_append.mpr (Or.inl (List.mem_cons_self _ _)), rfl⟩
    · exact ⟨nm :: q',
        List.mem_append.mpr (Or.inl (List.mem_cons_of_mem _ (List.mem_map_of_mem _ hq'))),
        by simp⟩
    · exact ⟨q, List.mem_append.mpr (Or.inr hq), rfl⟩

theorem mirrorF_spec (dl : Downloads) (site_id drive_id : String) :
    ∀ n cs (local_path : List String) (s : MState),
      countF cs ≤ n →
      wfF cs = true →
      (∀ q ∈ initSegs local_path, q ∈ s.fs.dirs) →
      (∀ q ∈ folderPathsF cs, readFile s.fs (local_path ++ q) = none) →
      (∀ p, p ∈ (mirrorF dl site_id drive_id local_path cs s).fs.dirs ↔
        (p ∈ s.fs.dirs ∨ ∃ q ∈ folderPathsF cs, p = local_path ++ q))
      ∧ (∀ p, readFile (mirrorF dl site_id drive_id local_path cs s).fs p =
          overlay (okFilesF dl site_id drive_id cs) local_path p (readFile s.fs p))
      ∧ (mirrorF dl site_id drive_id local_path cs s).log =
          s.log ++ mirrorLogF dl site_id drive_id local_path cs := by
  intro n
  induction n with
  | zero =>
    intro cs local_path s hc _ _ _
    cases cs with
    | nil => simp [mirrorF, folderPathsF, okFilesF, mirrorLogF, overlay_nil]
    | cons t ts =>
      exfalso
      have := countT_pos t
      simp [countF] at hc
      omega
  | succ n ih =>
    intro cs local_path s hc hwf h3 h4
    cases cs with
    | nil => simp [mirrorF, folderPathsF, okFilesF, mirrorLogF, overlay_nil]
    | cons t ts =>
      rcases (wfF_cons t ts).mp hwf with ⟨hwt, hwts, hname⟩
      simp only [countF] at hc
      have h1 : 1 ≤ countT t := countT_pos t
      have hcts : countF ts ≤ n := by omega
      cases t with
      | file i nm mt =>
        -- the file is downloaded (or skipped) first, then the siblings run
        have hfpcons : folderPathsF (RTree.file i nm mt :: ts) = folderPathsF ts := by
          simp [folderPathsF, folderPathsT]
        rw [hfpcons] at h4
        have hnmq : ∀ q ∈ folderPathsF ts, local_path ++ [nm] ≠ local_path ++ q := by
          intro q hq he
          have : [nm] = q := List.append_cancel_left he
          rcases (mem_folderPathsF ts q).mp hq with ⟨u, hu, hqu⟩
          rcases folderPathsT_head u q hqu with ⟨r, hr⟩
          have hnm : nm = u.name := by
            have h0 : [nm] = u.name :: r := this.symm ▸ hr
            exact (List.cons.injEq _ _ _ _ ▸ h0).1
          have : (RTree.file i nm mt).name ∈ ts.map RTree.name := by
            simpa [RTree.name, hnm] using List.mem_map_of_mem RTree.name hu
          exact hname this
        by_cases hst : (fetchFile dl site_id drive_id i).status_code = 200
        · -- successful fetch: the file is written, then the tail runs
          have hs1fs : (mirrorT dl site_id drive_id local_path (RTree.file i nm mt) s).fs =
              writeFile s.fs (local_path ++ [nm]) (fetchFile dl site_id drive_id i).content := by
            simp only [mirrorT, download_file]
            rw [if_pos (show (dl (file_download_url site_id drive_id i)).status_code = 200 from hst)]
            rfl
          have hs1log : (mirrorT dl site_id drive_id local_path (RTree.file i nm mt) s).log =
              s.log ++ [LogEvent.downloaded (local_path ++ [nm])] := by
            simp only [mirrorT, download_file]
            rw [if_pos (show (dl (file_download_url site_id drive_id i)).status_code = 200 from hst)]
          have hread1 : ∀ p, readFile (mirrorT dl site_id drive_id local_path
              (RTree.file i nm mt) s).fs p =
              if local_path ++ [nm] = p then some (fetchFile dl site_id drive_id i).content
              else readFile s.fs p := by
            intro p
            rw [hs1fs, readFile_writeFile]
          have h3' : ∀ q ∈ initSegs local_path,
              q ∈ (mirrorT dl site_id drive_id local_path (RTree.file i nm mt) s).fs.dirs := by
            intro q hq
            rw [hs1fs, writeFile_dirs]
            exact h3 q hq
          have h4' : ∀ q ∈ folderPathsF ts,
              readFile (mirrorT dl site_id drive_id local_path
                (RTree.file i nm mt) s).fs (local_path ++ q) = none := by
            intro q hq
            rw [hread1, if_neg (hnmq q hq)]
            exact h4 q hq
          obtain ⟨ha2, hb2, hc2⟩ := ih ts local_path _ hcts hwts h3' h4'
          refine ⟨?_, ?_, ?_⟩
          · intro p
            rw [mirrorF, ha2 p, hs1fs, writeFile_dirs, hfpcons]
          · intro p
            rw [mirrorF, hb2 p, hread1 p]
            have hdisj : ∀ ea ∈ okFilesT dl site_id drive_id (RTree.file i nm mt),
                local_path ++ ea.1 = p →
                ∀ eb ∈ okFilesF dl site_id drive_id ts, ¬ local_path ++ eb.1 = p := by
              intro ea hea hpa eb heb hpb
              simp only [okFilesT, hst, if_true, List.mem_singleton] at hea
              subst hea
              have h1b : eb.1 ∈ filePathsF ts := okFilesF_sub dl site_id drive_id ts eb heb
              have : [nm] = eb.1 := List.append_cancel_left (hpa.trans hpb.symm)
              have hn := wf_sibling_file_disjoint (RTree.file i nm mt) ts hname [nm]
                (by simp [filePathsT])
              exact hn (this ▸ h1b)
            rw [show okFilesF dl site_id drive_id (RTree.file i nm mt :: ts) =
                okFilesT dl site_id drive_id (RTree.file i nm mt) ++
                okFilesF dl site_id drive_id ts from rfl,
              overlay_append _ _ _ _ _ hdisj]
            congr 1
            simp only [okFilesT, hst, if_true]
            unfold overlay
            by_cases hp : local_path ++ [nm] = p
            · rw [List.find?_cons_of_pos _ (by simpa using hp), if_pos hp]
            · rw [List.find?_cons_of_neg _ (by simpa using hp), if_neg hp]
              rfl
          · rw [mirrorF, hc2, hs1log]
            simp [mirrorLogF, mirrorLogT, hst]
        · -- failed fetch: only a log line is produced, then the tail runs
          have hs1fs : (mirrorT dl site_id drive_id local_path (RTree.file i nm mt) s).fs =
              s.fs := by
            simp only [mirrorT, download_file]
            rw [if_neg (show ¬ (dl (file_download_url site_id drive_id i)).status_code = 200 from hst)]
          have hs1log : (mirrorT dl site_id drive_id local_path (RTree.file i nm mt) s).log =
              s.log ++ [LogEvent.failed nm (fetchFile dl site_id drive_id i).status_code
                (fetchFile dl site_id drive_id i).reason] := by
            simp only [mirrorT, download_file]
            rw [if_neg (show ¬ (dl (file_download_url site_id drive_id i)).status_code = 200 from hst)]
            rfl
          have h3' : ∀ q ∈ initSegs local_path,
              q ∈ (mirrorT dl site_id drive_id local_path (RTree.file i nm mt) s).fs.dirs := by
            intro q hq
            rw [hs1fs]
            exact h3 q hq
          have h4' : ∀ q ∈ folderPathsF ts,
              readFile (mirrorT dl site_id drive_id local_path
                (RTree.file i nm mt) s).fs (local_path ++ q) = none := by
            intro q hq
            rw [hs1fs]
            exact h4 q hq
          obtain ⟨ha2, hb2, hc2⟩ := ih ts local_path _ hcts hwts h3' h4'
          refine ⟨?_, ?_, ?_⟩
          · intro p
            rw [mirrorF, ha2 p, hs1fs, hfpcons]
          · intro p
            rw [mirrorF, hb2 p, hs1fs]
            rw [show okFilesF dl site_id drive_id (RTree.file i nm mt :: ts) =
                okFilesT dl site_id drive_id (RTree.file i nm mt) ++
                okFilesF dl site_id drive_id ts from rfl]
            simp only [okFilesT, hst, if_false, List.nil_append]
          · rw [mirrorF, hc2, hs1log]
            simp [mirrorLogF, mirrorLogT, hst]
      | folder i nm cs' =>
        have hwcs' : wfF cs' = true := by simpa [wfT] using hwt
        have hccs' : countF cs' ≤ n := by
          simp only [countT] at h1 hc
          omega
        have h4head : readFile s.fs (local_path ++ [nm]) = none :=
          h4 [nm] (by simp [folderPathsF, folderPathsT])
        -- the state after the (conditional) makedirs
        have hs1 :
            (∀ p, p ∈ (if pathExists s.fs (local_path ++ [nm]) then s
                else { s with fs := makedirs s.fs (local_path ++ [nm]) }).fs.dirs ↔
              (p ∈ s.fs.dirs ∨ p = local_path ++ [nm]))
            ∧ (if pathExists s.fs (local_path ++ [nm]) then s
                else { s with fs := makedirs s.fs (local_path ++ [nm]) }).fs.files = s.fs.files
            ∧ (if pathExists s.fs (local_path ++ [nm]) then s
                else { s with fs := makedirs s.fs (local_path ++ [nm]) }).log = s.log := by
          by_cases hex : pathExists s.fs (local_path ++ [nm])
          · have hdir : local_path ++ [nm] ∈ s.fs.dirs := by
              rcases hex with hd | hf
              · exact hd
              · exfalso
                rcases List.mem_map.mp hf with ⟨e, he, hep⟩
                exact (readFile_eq_none_iff s.fs (local_path ++ [nm])).mp h4head e he hep
            rw [if_pos hex]
            refine ⟨fun p => ?_, rfl, rfl⟩
            constructor
            · exact fun h => Or.inl h
            · rintro (h | rfl)
              · exact h
              · exact hdir
          · rw [if_neg hex]
            refine ⟨fun p => ?_, rfl, rfl⟩
            rw [show ({ s with fs := makedirs s.fs (local_path ++ [nm]) } : MState).fs.dirs =
              (makedirs s.fs (local_path ++ [nm])).dirs from rfl, mem_makedirs,
              initSegs_append_single]
            simp only [List.mem_append, List.mem_singleton]
            have h3p := h3 p
            tauto
        obtain ⟨hs1dirs, hs1files, hs1log⟩ := hs1
        -- hypotheses for the recursive run into the subtree
        have h3' : ∀ q ∈ initSegs (local_path ++ [nm]),
            q ∈ (if pathExists s.fs (local_path ++ [nm]) then s
              else { s with fs := makedirs s.fs (local_path ++ [nm]) }).fs.dirs := by
          intro q hq
          rw [initSegs_append_single] at hq
          rcases List.mem_append.mp hq with hq | hq
          · exact (hs1dirs q).mpr (Or.inl (h3 q hq))
          · exact (hs1dirs q).mpr (Or.inr (List.mem_singleton.mp hq))
        have h4' : ∀ q ∈ folderPathsF cs',
            readFile (if pathExists s.fs (local_path ++ [nm]) then s
              else { s with fs := makedirs s.fs (local_path ++ [nm]) }).fs
              ((local_path ++ [nm]) ++ q) = none := by
          intro q hq
          rw [show readFile (if pathExists s.fs (local_path ++ [nm]) then s
              else { s with fs := makedirs s.fs (local_path ++ [nm]) }).fs
              ((local_path ++ [nm]) ++ q) =
              readFile s.fs ((local_path ++ [nm]) ++ q) by
            unfold readFile
            rw [hs1files]]
          rw [List.append_assoc]
          exact h4 (nm :: q)
            (List.mem_append.mpr (Or.inl (List.mem_cons_of_mem _ (List.mem_map_of_mem _ hq))))
        obtain ⟨ha1, hb1, hc1⟩ := ih cs' (local_path ++ [nm]) _ hccs' hwcs' h3' h4'
        -- hypotheses for the run over the remaining siblings
        have h3'' : ∀ q ∈ initSegs local_path,
            q ∈ (mirrorF dl site_id drive_id (local_path ++ [nm]) cs'
              (if pathExists s.fs (local_path ++ [nm]) then s
                else { s with fs := makedirs s.fs (local_path ++ [nm]) })).fs.dirs := by
          intro q hq
          exact (ha1 q).mpr (Or.inl ((hs1dirs q).mpr (Or.inl (h3 q hq))))
        have h4'' : ∀ q ∈ folderPathsF ts,
            readFile (mirrorF dl site_id drive_id (local_path ++ [nm]) cs'
              (if pathExists s.fs (local_path ++ [nm]) then s
                else { s with fs := makedirs s.fs (local_path ++ [nm]) })).fs
              (local_path ++ q) = none := by
          intro q hq
          rw [hb1]
          have hnone : ∀ e ∈ okFilesF dl site_id drive_id cs',
              (local_path ++ [nm]) ++ e.1 ≠ local_path ++ q := by
            intro e he hcontra
            have h1b : e.1 ∈ filePathsF cs' := okFilesF_sub dl site_id drive_id cs' e he
            rw [List.append_assoc] at hcontra
            have hq' : nm :: e.1 = q := List.append_cancel_left hcontra
            rcases (mem_folderPathsF ts q).mp hq with ⟨u, hu, hqu⟩
            rcases folderPathsT_head u q hqu with ⟨r, hr⟩
            have : nm = u.name := by
              have h0 : nm :: e.1 = u.name :: r := hq'.trans hr
              exact (List.cons.injEq _ _ _ _ ▸ h0).1
            exact hname (by
              simpa [RTree.name, this] using List.mem_map_of_mem RTree.name hu)
          rw [overlay_of_none _ _ _ _ hnone]
          rw [show readFile (if pathExists s.fs (local_path ++ [nm]) then s
              else { s with fs := makedirs s.fs (local_path ++ [nm]) }).fs
              (local_path ++ q) = readFile s.fs (local_path ++ q) by
            unfold readFile
            rw [hs1files]]
          exact h4 q (List.mem_append.mpr (Or.inr hq))
        obtain ⟨ha2, hb2, hc2⟩ := ih ts local_path _ hcts hwts h3'' h4''
        refine ⟨?_, ?_, ?_⟩
        · intro p
          rw [show mirrorF dl site_id drive_id local_path
              (RTree.folder i nm cs' :: ts) s =
              mirrorF dl site_id drive_id local_path ts
                (mirrorF dl site_id drive_id (local_path ++ [nm]) cs'
                  (if pathExists s.fs (local_path ++ [nm]) then s
                    else { s with fs := makedirs s.fs (local_path ++ [nm]) })) from rfl]
          rw [ha2 p, ha1 p, hs1dirs p, fp_cons_folder i nm cs' ts local_path p]
          constructor
          · rintro (((h | h) | h) | h)
            · exact Or.inl h
            · exact Or.inr (Or.inl h)
            · exact Or.inr (Or.inr (Or.inl h))
            · exact Or.inr (Or.inr (Or.inr h))
          · rintro (h | h | h | h)
            · exact Or.inl (Or.inl (Or.inl h))
            · exact Or.inl (Or.inl (Or.inr h))
            · exact Or.inl (Or.inr h)
            · exact Or.inr h
        · intro p
          rw [show mirrorF dl site_id drive_id local_path
              (RTree.folder i nm cs' :: ts) s =
              mirrorF dl site_id drive_id local_path ts
                (mirrorF dl site_id drive_id (local_path ++ [nm]) cs'
                  (if pathExists s.fs (local_path ++ [nm]) then s
                    else { s with fs := makedirs s.fs (local_path ++ [nm]) })) from rfl]
          rw [hb2 p, hb1 p]
          rw [show readFile (if pathExists s.fs (local_path ++ [nm]) then s
              else { s with fs := makedirs s.fs (local_path ++ [nm]) }).fs p =
              readFile s.fs p by
            unfold readFile
            rw [hs1files]]
          have hdisj : ∀ ea ∈ okFilesT dl site_id drive_id (RTree.folder i nm cs'),
              local_path ++ ea.1 = p →
              ∀ eb ∈ okFilesF dl site_id drive_id ts, ¬ local_path ++ eb.1 = p := by
            intro ea hea hpa eb heb hpb
            simp only [okFilesT, List.mem_map] at hea
            rcases hea with ⟨e', he', rfl⟩
            have h1b : eb.1 ∈ filePathsF ts := okFilesF_sub dl site_id drive_id ts eb heb
            have : nm :: e'.1 = eb.1 := List.append_cancel_left (hpa.trans hpb.symm)
            rcases (mem_filePathsF ts eb.1).mp h1b with ⟨u, hu, hqu⟩
            rcases filePathsT_head u eb.1 hqu with ⟨r, hr⟩
            have hn : nm = u.name := by
              have h0 : nm :: e'.1 = u.name :: r := this.trans hr
              exact (List.cons.injEq _ _ _ _ ▸ h0).1
            exact hname (by
              simpa [RTree.name, hn] using List.mem_map_of_mem RTree.name hu)
          rw [show okFilesF dl site_id drive_id (RTree.folder i nm cs' :: ts) =
              okFilesT dl site_id drive_id (RTree.folder i nm cs') ++
              okFilesF dl site_id drive_id ts from rfl,
            overlay_append _ _ _ _ _ hdisj]
          congr 1
          rw [show okFilesT dl site_id drive_id (RTree.folder i nm cs') =
              (okFilesF dl site_id drive_id cs').map (fun e => (nm :: e.1, e.2)) from rfl,
            overlay_shift]
        · rw [show mirrorF dl site_id drive_id local_path
              (RTree.folder i nm cs' :: ts) s =
              mirrorF dl site_id drive_id local_path ts
                (mirrorF dl site_id drive_id (local_path ++ [nm]) cs'
                  (if pathExists s.fs (local_path ++ [nm]) then s
                    else { s with fs := makedirs s.fs (local_path ++ [nm]) })) from rfl]
          rw [hc2, hc1, hs1log]
          simp [mirrorLogF, mirrorLogT]

/-! ## General consequences used by the claims -/

theorem overlay_idem (E : List (List String × List Nat)) (b p : List String)
    (fb : Option (List Nat)) :
    overlay E b p (overlay E b p fb) = overlay E b p fb := by
  unfold overlay
  cases E.find? (fun e => decide (b ++ e.1 = p)) <;> rfl

/-! ## Concrete fixture: the example remote drive of spec section 8 -/

def exTree : List RTree :=
  [RTree.folder "f1" "Reports" [RTree.file "f2" "q1.pdf" "application/pdf"],
   RTree.file "f3" "readme.txt" "text/plain"]

def exSrv : Server := fun u =>
  if u = folder_contents_url "S" "D" "root1" then
    ChildrenResp.json (some (exTree.map itemOf))
  else if u = folder_contents_url "S" "D" "f1" then
    ChildrenResp.json (some ([RTree.file "f2" "q1.pdf" "application/pdf"].map itemOf))
  else ChildrenResp.json none

/-- A server that additionally serves a malformed body for folder id `bad`. -/
def exSrvBad : Server := fun u =>
  if u = folder_contents_url "S" "D" "bad" then ChildrenResp.malformed else exSrv u

/-- Content downloads in which both example files succeed. -/
def exDl : Downloads := fun u =>
  if u = file_download_url "S" "D" "f2" then
    { status_code := 200, reason := "OK", content := [1, 2, 3] }
  else if u = file_download_url "S" "D" "f3" then
    { status_code := 200, reason := "OK", content := [4, 5] }
  else { status_code := 404, reason := "Not Found", content := [] }

/-- Content downloads in which `readme.txt` (item id f3) fails with HTTP 404. -/
def exDl404 : Downloads := fun u =>
  if u = file_download_url "S" "D" "f2" then
    { status_code := 200, reason := "OK", content := [1, 2, 3] }
  else { status_code := 404, reason := "Not Found", content := [] }

/-- A fresh local state whose only directory is the target root `data`. -/
def exState : MState := { fs := { dirs := [["data"]], files := [] }, log := [] }

theorem exPresents : Presents exSrv "S" "D" (RTree.folder "root1" "root" exTree) := by
  refine Presents.folder _ _ _ (by decide) ?_
  intro c hc
  simp only [exTree, List.mem_cons, List.not_mem_nil, or_false] at hc
  rcases hc with rfl | rfl
  · refine Presents.folder _ _ _ (by decide) ?_
    intro c hc
    simp only [List.mem_cons, List.not_mem_nil, or_false] at hc
    rcases hc with rfl
    exact Presents.file _ _ _
  · exact Presents.file _ _ _

theorem exPresentsBad : Presents exSrvBad "S" "D" (RTree.folder "root1" "root" exTree) := by
  refine Presents.folder _ _ _ (by decide) ?_
  intro c hc
  simp only [exTree, List.mem_cons, List.not_mem_nil, or_false] at hc
  rcases hc with rfl | rfl
  · refine Presents.folder _ _ _ (by decide) ?_
    intro c hc
    simp only [List.mem_cons, List.not_mem_nil, or_false] at hc
    rcases hc with rfl
    exact Presents.file _ _ _
  · exact Presents.file _ _ _

/-! ## The claims -/

/-- C1: for every well-formed finite remote tree presented by the server,
`list_folder_contents` (given enough fuel) returns exactly the pre-order
listing of the tree — each folder entry precedes its subtree's entries,
a subtree's entries precede the next sibling's, siblings stay in server
order — and the number of entries is the number of folders plus the number
of files (each item exactly once). -/
theorem C1_walk_preorder (srv : Server) (site_id drive_id i n : String)
    (cs : List RTree) (fuel level : Nat)
    (hp : Presents srv site_id drive_id (RTree.folder i n cs))
    (hf : heightF cs < fuel) :
    list_folder_contents srv site_id drive_id fuel i level = .ok (preorderF cs)
    ∧ (preorderF cs).length = foldersF cs + filesF cs :=
  ⟨list_folder_contents_tree srv site_id drive_id i n cs fuel level hp hf,
   preorderF_length cs⟩

/-- Witness for C1 at the example of spec section 8: a root holding folder
`Reports` (with file `q1.pdf`) followed by file `readme.txt`; the walk
returns exactly the three entries in the stated order. -/
theorem C1_witness :
    list_folder_contents exSrv "S" "D" 2 "root1" 0 =
      .ok [{name := "Reports", type := "Folder", mimeType := none},
           {name := "q1.pdf", type := "File", mimeType := some "application/pdf"},
           {name := "readme.txt", type := "File", mimeType := some "text/plain"}]
    ∧ (preorderF exTree).length = foldersF exTree + filesF exTree := by
  have h := C1_walk_preorder exSrv "S" "D" "root1" "root" exTree 2 0 exPresents (by decide)
  exact ⟨h.1.trans (by rfl), h.2⟩

/-- C2: mirroring a presented well-formed tree into an existing local root
creates exactly one local directory per remote folder (same name, same
nesting, pre-existing directories untouched), writes exactly the files
whose content fetch returned HTTP 200 (at their isomorphic local paths,
other local files untouched), and logs one line per file — `downloaded`
for fetched ones, `failed` for skipped ones. -/
theorem C2_mirror_iso (srv : Server) (dl : Downloads) (site_id drive_id i n : String)
    (cs : List RTree) (fuel level : Nat) (local_path : List String) (s : MState)
    (hp : Presents srv site_id drive_id (RTree.folder i n cs))
    (hf : heightF cs < fuel)
    (hwf : wfF cs = true)
    (h3 : ∀ q ∈ initSegs local_path, q ∈ s.fs.dirs)
    (h4 : ∀ q ∈ folderPathsF cs, readFile s.fs (local_path ++ q) = none) :
    ∃ s2, download_folder_contents srv dl site_id drive_id fuel i local_path level s = .ok s2
      ∧ (∀ p, p ∈ s2.fs.dirs ↔
          (p ∈ s.fs.dirs ∨ ∃ q ∈ folderPathsF cs, p = local_path ++ q))
      ∧ (∀ p, readFile s2.fs p =
          overlay (okFilesF dl site_id drive_id cs) local_path p (readFile s.fs p))
      ∧ s2.log = s.log ++ mirrorLogF dl site_id drive_id local_path cs := by
  obtain ⟨ha, hb, hc⟩ :=
    mirrorF_spec dl site_id drive_id (countF cs) cs local_path s (le_refl _) hwf h3 h4
  exact ⟨mirrorF dl site_id drive_id local_path cs s,
    download_folder_contents_tree srv dl site_id drive_id i n cs fuel level local_path s hp hf,
    ha, hb, hc⟩

/-- Witness for C2: mirroring the example tree into a fresh `data` root,
with `readme.txt` failing with 404. -/
theorem C2_witness :
    ∃ s2, download_folder_contents exSrv exDl404 "S" "D" 2 "root1" ["data"] 0 exState = .ok s2
      ∧ (∀ p, p ∈ s2.fs.dirs ↔
          (p ∈ exState.fs.dirs ∨ ∃ q ∈ folderPathsF exTree, p = ["data"] ++ q))
      ∧ (∀ p, readFile s2.fs p =
          overlay (okFilesF exDl404 "S" "D" exTree) ["data"] p (readFile exState.fs p))
      ∧ s2.log = exState.log ++ mirrorLogF exDl404 "S" "D" ["data"] exTree :=
  C2_mirror_iso exSrv exDl404 "S" "D" "root1" "root" exTree 2 0 ["data"] exState
    exPresents (by decide) (by decide) (by decide) (by decide)

/-- C3: when the content request for a file returns a non-success status,
`download_file` leaves the filesystem untouched and only appends the
failure log line; and the item loop of `download_folder_contents` hands a
file item to `download_file` and then continues with the remaining
siblings, so one failed download aborts nothing. -/
theorem C3_failed_download (dl : Downloads) (site_id drive_id : String)
    (item : Item) (mt : String) (rest : List Item)
    (rec : String → List String → MState → Except RunErr MState)
    (local_path : List String) (s : MState)
    (hfo : item.folder = false) (hfi : item.file = some mt)
    (hst : (dl (file_download_url site_id drive_id item.id)).status_code ≠ 200) :
    (download_file dl (file_download_url site_id drive_id item.id)
        local_path item.name s).fs = s.fs
    ∧ (download_file dl (file_download_url site_id drive_id item.id)
        local_path item.name s).log =
        s.log ++ [LogEvent.failed item.name
          (dl (file_download_url site_id drive_id item.id)).status_code
          (dl (file_download_url site_id drive_id item.id)).reason]
    ∧ download_folder_items dl site_id drive_id rec local_path (item :: rest) s =
        download_folder_items dl site_id drive_id rec local_path rest
          (download_file dl (file_download_url site_id drive_id item.id)
            local_path item.name s) := by
  refine ⟨?_, ?_, ?_⟩
  · simp only [download_file]
    rw [if_neg hst]
  · simp only [download_file]
    rw [if_neg hst]
  · simp only [download_folder_items, hfo, Bool.false_eq_true, if_false, hfi]

/-- Witness for C3: `readme.txt` (item f3) gets HTTP 404 from `exDl404`;
nothing is written, the failure is logged, the loop moves on. -/
theorem C3_witness :
    (download_file exDl404 (file_download_url "S" "D" "f3")
        ["data"] "readme.txt" exState).fs = exState.fs
    ∧ (download_file exDl404 (file_download_url "S" "D" "f3")
        ["data"] "readme.txt" exState).log =
        exState.log ++ [LogEvent.failed "readme.txt"
          (exDl404 (file_download_url "S" "D" "f3")).status_code
          (exDl404 (file_download_url "S" "D" "f3")).reason]
    ∧ download_folder_items exDl404 "S" "D" (fun _ _ s1 => .ok s1) ["data"]
        ({id := "f3", name := "readme.txt", folder := false, file := some "text/plain"} ::
          []) exState =
      download_folder_items exDl404 "S" "D" (fun _ _ s1 => .ok s1) ["data"] []
        (download_file exDl404 (file_download_url "S" "D" "f3")
          ["data"] "readme.txt" exState) :=
  C3_failed_download exDl404 "S" "D"
    {id := "f3", name := "readme.txt", folder := false, file := some "text/plain"}
    "text/plain" [] (fun _ _ s1 => .ok s1) ["data"] exState rfl rfl (by decide)

/-- C4 (defect at source line 99): the URL the mirror actually requests for
a file is built from the module-level global `resource` and so carries a
double slash: it is not the spec's
`https://graph.microsoft.com/v1.0/.../content`.  The item loop does hand
exactly this URL to `download_file`. -/
theorem C4_download_url_uses_global :
    file_download_url "S" "D" "I" =
      "https://graph.microsoft.com//v1.0/sites/S/drives/D/items/I/content"
    ∧ file_download_url "S" "D" "I" ≠ spec_content_url "S" "D" "I"
    ∧ ∀ (dl : Downloads) (rec : String → List String → MState → Except RunErr MState)
        (s : MState),
        download_folder_items dl "S" "D" rec ["data"]
          [{id := "I", name := "f.txt", folder := false, file := some "text/plain"}] s =
        .ok (download_file dl (file_download_url "S" "D" "I") ["data"] "f.txt" s) := by
  refine ⟨by decide, by decide, fun dl rec s => rfl⟩

/-- C5 (defect at source line 23): when the identity provider's body has no
`access_token` field, `get_access_token` returns the absent token `none`
with no error, and the `Authorization` header built from it for every later
call is the literal `Bearer None`. -/
theorem C5_missing_token_silent :
    get_access_token (fun _ => { access_token := none }) "client-id" "client-secret"
      "https://graph.microsoft.com/" = none
    ∧ auth_header (get_access_token (fun _ => { access_token := none }) "client-id"
        "client-secret" "https://graph.microsoft.com/") = "Bearer None" :=
  ⟨rfl, rfl⟩

/-- C6: mirroring twice against an unchanged presented tree gives the same
final directory set and file map as mirroring once — files are overwritten
with the same bytes, existing directories are left alone. -/
theorem C6_mirror_idempotent (srv : Server) (dl : Downloads)
    (site_id drive_id i n : String) (cs : List RTree) (fuel level : Nat)
    (local_path : List String) (s : MState)
    (hp : Presents srv site_id drive_id (RTree.folder i n cs))
    (hf : heightF cs < fuel)
    (hwf : wfF cs = true)
    (h3 : ∀ q ∈ initSegs local_path, q ∈ s.fs.dirs)
    (h4 : ∀ q ∈ folderPathsF cs, readFile s.fs (local_path ++ q) = none) :
    ∃ s1 s2,
      download_folder_contents srv dl site_id drive_id fuel i local_path level s = .ok s1
      ∧ download_folder_contents srv dl site_id drive_id fuel i local_path level s1 = .ok s2
      ∧ (∀ p, p ∈ s2.fs.dirs ↔ p ∈ s1.fs.dirs)
      ∧ (∀ p, readFile s2.fs p = readFile s1.fs p) := by
  obtain ⟨ha1, hb1, hc1⟩ :=
    mirrorF_spec dl site_id drive_id (countF cs) cs local_path s (le_refl _) hwf h3 h4
  have h3' : ∀ q ∈ initSegs local_path,
      q ∈ (mirrorF dl site_id drive_id local_path cs s).fs.dirs :=
    fun q hq => (ha1 q).mpr (Or.inl (h3 q hq))
  have h4' : ∀ q ∈ folderPathsF cs,
      readFile (mirrorF dl site_id drive_id local_path cs s).fs (local_path ++ q) = none := by
    intro q hq
    rw [hb1 (local_path ++ q), overlay_of_none _ _ _ _ (fun e he hcontra => by
      have h1b : e.1 ∈ filePathsF cs := okFilesF_sub dl site_id drive_id cs e he
      have : e.1 = q := List.append_cancel_left hcontra
      exact wf_folder_file_disjoint cs hwf q hq (this ▸ h1b))]
    exact h4 q hq
  obtain ⟨ha2, hb2, hc2⟩ :=
    mirrorF_spec dl site_id drive_id (countF cs) cs local_path
      (mirrorF dl site_id drive_id local_path cs s) (le_refl _) hwf h3' h4'
  refine ⟨mirrorF dl site_id drive_id local_path cs s,
    mirrorF dl site_id drive_id local_path cs (mirrorF dl site_id drive_id local_path cs s),
    download_folder_contents_tree srv dl site_id drive_id i n cs fuel level local_path s hp hf,
    download_folder_contents_tree srv dl site_id drive_id i n cs fuel level local_path _ hp hf,
    ?_, ?_⟩
  · intro p
    rw [ha2 p]
    constructor
    · rintro (h | h)
      · exact h
      · exact (ha1 p).mpr (Or.inr h)
    · exact fun h => Or.inl h
  · intro p
    rw [hb2 p, hb1 p, overlay_idem]

/-- Witness for C6: two consecutive mirror runs of the example tree into
the `data` root. -/
theorem C6_witness :
    ∃ s1 s2,
      download_folder_contents exSrv exDl "S" "D" 2 "root1" ["data"] 0 exState = .ok s1
      ∧ download_folder_contents exSrv exDl "S" "D" 2 "root1" ["data"] 0 s1 = .ok s2
      ∧ (∀ p, p ∈ s2.fs.dirs ↔ p ∈ s1.fs.dirs)
      ∧ (∀ p, readFile s2.fs p = readFile s1.fs p) :=
  C6_mirror_idempotent exSrv exDl "S" "D" "root1" "root" exTree 2 0 ["data"] exState
    exPresents (by decide) (by decide) (by decide) (by decide)

/-- C7: a malformed children response is not handled during mirroring:
`download_folder_contents` on such a folder returns the uncaught-exception
outcome, and when the malformed folder is met mid-loop the whole loop stops
with that exception — the remaining siblings are never processed and no
state survives. -/
theorem C7_malformed_raises (srv : Server) (dl : Downloads)
    (site_id drive_id folder_id : String) (local_path : List String)
    (level fuel : Nat) (s : MState)
    (h : srv (folder_contents_url site_id drive_id folder_id) = ChildrenResp.malformed) :
    download_folder_contents srv dl site_id drive_id (fuel + 1) folder_id
      local_path level s = .error .exn
    ∧ (∀ (item : Item) (rest : List Item) (g : Nat),
        item.folder = true →
        srv (folder_contents_url site_id drive_id item.id) = ChildrenResp.malformed →
        download_folder_items dl site_id drive_id
          (fun cid new_path s1 =>
            download_folder_contents srv dl site_id drive_id (g + 1) cid new_path
              (level + 1) s1)
          local_path (item :: rest) s = .error .exn) := by
  constructor
  · simp only [download_folder_contents, h]
  · intro item rest g hfo hmal
    simp only [download_folder_items, hfo, if_true, download_folder_contents, hmal]

/-- Witness for C7: folder id `bad` answers with a malformed body; the
mirror of it raises, also when `bad` is the first item of a loop with a
further sibling. -/
theorem C7_witness :
    download_folder_contents exSrvBad exDl "S" "D" 2 "bad" ["data"] 0 exState = .error .exn
    ∧ (∀ (item : Item) (rest : List Item) (g : Nat),
        item.folder = true →
        exSrvBad (folder_contents_url "S" "D" item.id) = ChildrenResp.malformed →
        download_folder_items exDl "S" "D"
          (fun cid new_path s1 =>
            download_folder_contents exSrvBad exDl "S" "D" (g + 1) cid new_path 1 s1)
          ["data"] (item :: rest) exState = .error .exn) :=
  C7_malformed_raises exSrvBad exDl "S" "D" "bad" ["data"] 0 1 exState (by decide)

/-- C8: on a presented (hence acyclic and finite) tree both recursive
routines terminate: there is a fuel bound above which
`list_folder_contents` returns its eagerly materialized finite listing —
of length `countF cs` — and `download_folder_contents` returns the mirrored
state, independent of the extra fuel. -/
theorem C8_termination (srv : Server) (dl : Downloads)
    (site_id drive_id i n : String) (cs : List RTree)
    (hp : Presents srv site_id drive_id (RTree.folder i n cs)) :
    ∃ N, ∀ fuel, N ≤ fuel → ∀ (level : Nat) (local_path : List String) (s : MState),
      list_folder_contents srv site_id drive_id fuel i level = .ok (preorderF cs)
      ∧ (preorderF cs).length = countF cs
      ∧ download_folder_contents srv dl site_id drive_id fuel i local_path level s =
          .ok (mirrorF dl site_id drive_id local_path cs s) := by
  refine ⟨heightF cs + 1, fun fuel hf level local_path s => ⟨?_, ?_, ?_⟩⟩
  · exact list_folder_contents_tree srv site_id drive_id i n cs fuel level hp (by omega)
  · rw [preorderF_length, countF_eq]
  · exact download_folder_contents_tree srv dl site_id drive_id i n cs fuel level
      local_path s hp (by omega)

/-- Witness for C8 at the example tree. -/
theorem C8_witness :
    ∃ N, ∀ fuel, N ≤ fuel → ∀ (level : Nat) (local_path : List String) (s : MState),
      list_folder_contents exSrv "S" "D" fuel "root1" level = .ok (preorderF exTree)
      ∧ (preorderF exTree).length = countF exTree
      ∧ download_folder_contents exSrv exDl "S" "D" fuel "root1" local_path level s =
          .ok (mirrorF exDl "S" "D" local_path exTree s) :=
  C8_termination exSrv exDl "S" "D" "root1" "root" exTree exPresents

/-- C9: `get_folder_content` ignores its `folder_path` parameter — for every
server, site and drive it issues the drive-root children request and returns
exactly what it returns for `folder_path = "root"`. -/
theorem C9_folder_path_ignored (srv : Server) (site_id drive_id folder_path : String) :
    get_folder_content srv site_id drive_id folder_path =
      get_folder_content srv site_id drive_id "root" := rfl

/-- C10: an item carrying neither a `folder` nor a `file` facet contributes
no walk entry and no mirror effect (no directory, no download, no log line),
and a children response without a `value` field makes the walk of that
folder return `[]` and its mirror return the state unchanged. -/
theorem C10_unrecognized_items (srv : Server) (dl : Downloads)
    (site_id drive_id folder_id : String) (item : Item) (rest : List Item)
    (rec1 : String → Except RunErr (List Entry))
    (rec2 : String → List String → MState → Except RunErr MState)
    (local_path : List String) (level fuel : Nat) (s : MState)
    (hfo : item.folder = false) (hfi : item.file = none)
    (hv : srv (folder_contents_url site_id drive_id folder_id) = ChildrenResp.json none) :
    list_folder_items rec1 (item :: rest) = list_folder_items rec1 rest
    ∧ download_folder_items dl site_id drive_id rec2 local_path (item :: rest) s =
        download_folder_items dl site_id drive_id rec2 local_path rest s
    ∧ list_folder_contents srv site_id drive_id (fuel + 1) folder_id level = .ok []
    ∧ download_folder_contents srv dl site_id drive_id (fuel + 1) folder_id
        local_path level s = .ok s := by
  refine ⟨?_, ?_, ?_, ?_⟩
  · simp only [list_folder_items, hfo, Bool.false_eq_true, if_false, hfi]
  · simp only [download_folder_items, hfo, Bool.false_eq_true, if_false, hfi]
  · simp only [list_folder_contents, hv]
  · simp only [download_folder_contents, hv]

/-- Witness for C10: an item with neither facet and a folder whose response
has no `value` field. -/
theorem C10_witness :
    list_folder_items (fun _ => .ok []) 
        ({id := "x", name := "weird", folder := false, file := none} ::
          [itemOf (RTree.file "f3" "readme.txt" "text/plain")]) =
      list_folder_items (fun _ => .ok [])
        [itemOf (RTree.file "f3" "readme.txt" "text/plain")]
    ∧ download_folder_items exDl "S" "D" (fun _ _ s1 => .ok s1) ["data"]
        ({id := "x", name := "weird", folder := false, file := none} ::
          [itemOf (RTree.file "f3" "readme.txt" "text/plain")]) exState =
      download_folder_items exDl "S" "D" (fun _ _ s1 => .ok s1) ["data"]
        [itemOf (RTree.file "f3" "readme.txt" "text/plain")] exState
    ∧ list_folder_contents exSrv "S" "D" 2 "unknown-folder" 0 = .ok []
    ∧ download_folder_contents exSrv exDl "S" "D" 2 "unknown-folder" ["data"] 0 exState =
        .ok exState :=
  C10_unrecognized_items exSrv exDl "S" "D" "unknown-folder"
    {id := "x", name := "weird", folder := false, file := none}
    [itemOf (RTree.file "f3" "readme.txt" "text/plain")]
    (fun _ => .ok []) (fun _ _ s1 => .ok s1) ["data"] 0 1 exState rfl rfl (by decide)
